import Mathlib

/-!
Verification of the incident normalization and dedup pipeline of the
`status-monitor` repository.

The Lean definitions below are a shallow embedding of the Python source:

* `src/utils/rss_parser.py`   — RSS item parsing, id derivation, the
  `<li>Name (Status)</li>` extraction regex (`RSSParser`).
* `src/adapters/rss_adapter.py` — the strategy cascade
  (`RSSAdapter.process_incident_async`) and the normalizer
  (`RSSAdapter._format_incidents`).
* `src/adapters/bolna_adapter.py` — the Bolna keyword fallback.
* `src/core/formatter.py`     — timestamp rendering (`format_incident`).
* `src/core/watcher.py`       — the per-source dedup loop
  (`Watcher.check_incidents`, `Watcher.show_initial_status`).

Python `None` values are modelled with `Option`; a Python function that can
raise an exception is modelled returning `Option` with `none` for "raised".
Strings are manipulated as `List Char` internally and wrapped into `String`
at the interfaces.
-/

namespace SM

/-! ### Generic string helpers (models of Python string primitives) -/

/-- Model of removing a leading pattern: `dropPfx p s = some r` iff `s = p ++ r`.
Used to model regex literal matching and `str.startswith`-like checks. -/
def dropPfx : List Char → List Char → Option (List Char)
  | [], s => some s
  | _ :: _, [] => none
  | a :: ps, b :: cs => if a = b then dropPfx ps cs else none

/-- Model of the Python substring test `sep in s`. -/
def hasSub (sep : List Char) : List Char → Bool
  | [] => decide (sep = [])
  | c :: rest => (dropPfx sep (c :: rest)).isSome || hasSub sep rest

/-- Model of `s.split(sep, 1)` restricted to the case `sep in s`:
returns the part before the first occurrence of `sep` and the part after it. -/
def splitOnceCh (sep : List Char) : List Char → List Char × List Char
  | [] => ([], [])
  | c :: rest =>
    match dropPfx sep (c :: rest) with
    | some r => ([], r)
    | none =>
      let p := splitOnceCh sep rest
      (c :: p.1, p.2)

/-- Characters treated as whitespace by Python's `str.strip()` (ASCII part). -/
def isPySpace (c : Char) : Bool :=
  c = ' ' || c = '\t' || c = '\n' || c = '\r' || c = Char.ofNat 11 || c = Char.ofNat 12

/-- Model of Python `str.strip()`: remove trailing, then leading whitespace
(the order is irrelevant for the result). -/
def pyStrip (s : List Char) : List Char :=
  ((s.reverse.dropWhile isPySpace).reverse).dropWhile isPySpace

/-- Model of Python `str.lower()` on ASCII letters (the only case exercised). -/
def pyLower (s : List Char) : List Char :=
  s.map Char.toLower

/-- Model of `s.replace(old, new)` for a one-character `old`,
as in `time_created.replace('Z', '+00:00')`: every occurrence is replaced. -/
def pyReplaceChar (old : Char) (new : List Char) : List Char → List Char
  | [] => []
  | c :: rest =>
    if c = old then new ++ pyReplaceChar old new rest
    else c :: pyReplaceChar old new rest

/-- Model of `s.split('/')[-1]`: the part of `s` after the last `'/'`
(the whole string when there is no `'/'`; empty when `s` ends with `'/'`). -/
def lastSegment (s : String) : String :=
  ((s.data.reverse.takeWhile (· ≠ '/')).reverse).asString

/-! ### `html.unescape` model

The source calls `html.unescape` before scanning for `<li>` items
(`RSSParser.extract_services_from_html`).  We model the core named entities;
on inputs containing no `'&'` (the only inputs the theorems below exercise)
any correct model of `html.unescape` is the identity, which is proved as a
lemma. -/

/-- Recognize one HTML entity body right after a `'&'`. -/
def unescEntity (rest : List Char) : Option (Char × List Char) :=
  match dropPfx "amp;".data rest with
  | some r => some ('&', r)
  | none =>
    match dropPfx "lt;".data rest with
    | some r => some ('<', r)
    | none =>
      match dropPfx "gt;".data rest with
      | some r => some ('>', r)
      | none =>
        match dropPfx "quot;".data rest with
        | some r => some ('"', r)
        | none =>
          match dropPfx "#39;".data rest with
          | some r => some (Char.ofNat 39, r)
          | none => none

/-- Fuel-driven scanner for `unescapeCh`; the fuel is an upper bound on the
number of characters still to consume, so `s.length` is always enough. -/
def unescapeAux : Nat → List Char → List Char
  | 0, s => s
  | _ + 1, [] => []
  | fuel + 1, c :: rest =>
    if c = '&' then
      match unescEntity rest with
      | some (d, r) => d :: unescapeAux fuel r
      | none => c :: unescapeAux fuel rest
    else c :: unescapeAux fuel rest

/-- Model of `html.unescape` (named-entity part). -/
def unescapeCh (s : List Char) : List Char :=
  unescapeAux s.length s

/-! ### RSS feed parsing (`RSSParser.fetch_rss_feed_async`, lines 34–58)

An XML element found by `item.find(tag)` is modelled as
`Option (Option String)`: `none` for "element absent" and `some t` for an
element whose `.text` is `t` (ElementTree gives `.text = None` for an
element with no text, hence the inner `Option`). -/

/-- Relevant children of one `<item>` of the feed, as seen through
`item.find('title')`, `item.find('link')`, `item.find('pubDate')`,
`item.find('description')`, `item.find('guid')`. -/
structure RssItem where
  title : Option (Option String)
  link : Option (Option String)
  pub_date : Option (Option String)
  description : Option (Option String)
  guid : Option (Option String)
  deriving DecidableEq, Repr

/-- Python truthiness of `elem is not None and elem.text`: returns the text
when the element is present and its text is a non-empty string. -/
def truthyText : Option (Option String) → Option String
  | some (some s) => if s = "" then none else some s
  | _ => none

/-- One parsed incident dictionary as built by `fetch_rss_feed_async`.
Every key is always present; a value of `none` models Python `None`. -/
structure RawIncident where
  id : Option String
  title : Option String
  link : Option String
  pub_date : Option String
  description : Option String
  deriving DecidableEq, Repr

/-- The `incident_id` local of `fetch_rss_feed_async`: trailing path segment
of the guid text when the guid is present with truthy text, else of the link
text, else `None`. -/
def rssIncidentIdRaw (it : RssItem) : Option String :=
  match truthyText it.guid with
  | some g => some (lastSegment g)
  | none =>
    match truthyText it.link with
    | some l => some (lastSegment l)
    | none => none

/-- The value stored under `'id'`:
`incident_id or title.text if title is not None else 'unknown'`, which by
Python precedence is `(incident_id or title.text) if (title is not None)
else 'unknown'`, with `or` treating `None` and `""` as falsy. -/
def rssIncidentId (it : RssItem) : Option String :=
  match it.title with
  | none => some "unknown"
  | some t =>
    match rssIncidentIdRaw it with
    | some s => if s = "" then t else some s
    | none => t

/-- Model of the element-to-field translation
`elem.text if elem is not None else 'N/A'`. -/
def fieldOrNA : Option (Option String) → Option String
  | none => some "N/A"
  | some t => t

/-- The incident dictionary appended for one feed `<item>`
(`fetch_rss_feed_async`, lines 50–56). -/
def parseRssItem (it : RssItem) : RawIncident :=
  { id := rssIncidentId it
    title := fieldOrNA it.title
    link := fieldOrNA it.link
    pub_date := fieldOrNA it.pub_date
    description := fieldOrNA it.description }

/-- Whole-feed parse: `root.findall('.//item')[:max_items]` then per-item
translation. -/
def parseRssFeed (items : List RssItem) (maxItems : Nat) : List RawIncident :=
  (items.take maxItems).map parseRssItem

/-! ### `<li>Name (Status)</li>` extraction
(`RSSParser.extract_services_from_html`, lines 77–101)

The source runs `re.findall(r'<li>([^(]+)\s*\(([^)]+\))</li>', html)` — more
precisely the pattern `<li>([^(]+)\s*\([^)]+\)</li>` — over the unescaped
HTML and strips each captured group.  Because `[^(]+` is greedy and cannot
cross a `'('`, a match attempt that starts at a given position is fully
determined: the group is the maximal run of non-`'('` characters after
`<li>`, the status is the maximal run of non-`')'` characters after the
`'('`, and the attempt succeeds exactly when both runs are non-empty and the
`')'` is immediately followed by `</li>`.  Backtracking inside `\s*` can only
re-reach the same `'('`, so it never changes the outcome.  `findall` scans
left to right, advancing one character after a failed attempt and resuming
after the end of a successful match. -/

/-- The character class `[^(]` of the pattern. -/
def notLParen (c : Char) : Bool :=
  c ≠ '('

/-- The character class `[^)]` of the pattern. -/
def notRParen (c : Char) : Bool :=
  c ≠ ')'

/-- One match attempt of the pattern at the head of `s`; on success returns
the captured group (before stripping) and the rest of the input after the
match. -/
def matchLiAt (s : List Char) : Option (List Char × List Char) :=
  match dropPfx "<li>".data s with
  | none => none
  | some rest =>
    let g := rest.takeWhile notLParen
    match rest.dropWhile notLParen with
    | '(' :: r2 =>
      if g = [] then none
      else
        let st := r2.takeWhile notRParen
        match r2.dropWhile notRParen with
        | ')' :: r4 =>
          if st = [] then none
          else
            match dropPfx "</li>".data r4 with
            | some r5 => some (g, r5)
            | none => none
        | _ => none
    | _ => none

/-- Fuel-driven left-to-right scan of `re.findall` for the pattern above;
`s.length` fuel always suffices since every step consumes at least one
character. -/
def findLiAux : Nat → List Char → List (List Char)
  | 0, _ => []
  | _ + 1, [] => []
  | fuel + 1, c :: rest =>
    match matchLiAt (c :: rest) with
    | some (g, r5) => g :: findLiAux fuel r5
    | none => findLiAux fuel rest

/-- Model of `RSSParser.extract_services_from_html`. -/
def extractServicesFromHtml (html : String) : List String :=
  if html = "" then []
  else
    let h := unescapeCh html.data
    (findLiAux h.length h).map (fun g => (pyStrip g).asString)

/-- The call `extract_services_from_html(description)` where the description
value may be Python `None` (the function's `if not html_content` guard
returns `[]` for both `None` and `""`). -/
def extractServicesOpt : Option String → List String
  | none => []
  | some h => extractServicesFromHtml h

/-! ### Normalization (`RSSAdapter._format_incidents`, lines 89–110) -/

/-- The separator `" - "` used by `_format_incidents`. -/
def sepDash : List Char := ' ' :: '-' :: ' ' :: []

/-- One normalized incident-impact dictionary.  `group` and `component` are
always strings; `time_created` and `status_message` carry the raw `pub_date`
and `title` values, which may be Python `None`. -/
structure Record where
  group : String
  component : String
  time_created : Option String
  status_message : Option String
  deriving DecidableEq, Repr

/-- Model of `RSSAdapter._format_incidents(services, title, pub_date)` for an
adapter whose display name is `name`: split each service string once on the
first `" - "` and strip both sides, else use `name` as the group and the
service string itself as the component. -/
def formatIncidents (name : String) (services : List String)
    (title pub_date : Option String) : List Record :=
  services.map fun service =>
    if hasSub sepDash service.data then
      let p := splitOnceCh sepDash service.data
      { group := (pyStrip p.1).asString
        component := (pyStrip p.2).asString
        time_created := pub_date
        status_message := title }
    else
      { group := name
        component := service
        time_created := pub_date
        status_message := title }

/-! ### The strategy cascade (`RSSAdapter.process_incident_async`, lines 40–87)

The detail-page fetch+parse (`_parse_incident_page`, network plus
BeautifulSoup) is modelled as an oracle `page : String → Option (List
String)`; `none` models an exception raised by the fetch or the parse, which
the source swallows (`except Exception: pass`) before moving to the
fallback.  The subclass hook `_extract_fallback_services` is modelled as a
function returning `Option (List String)`; `none` models an exception raised
by the hook, which the source does not catch, so it propagates out of
`process_incident_async` — the overall result is then `none`. -/

/-- Model of `RSSAdapter.process_incident_async` for an adapter with display
name `name` and `INCIDENT_PARSER_TYPE = parserType`.  Python truthiness of
the guard `self.INCIDENT_PARSER_TYPE and link and link != 'N/A'` is modelled
exactly: the parser type must be a non-empty string, and the link value must
be a non-empty string different from `"N/A"`. -/
def processIncidentAsync (name : String) (parserType : Option String)
    (page : String → Option (List String))
    (fallback : RawIncident → Option (List String))
    (inc : RawIncident) : Option (List Record) :=
  let title := inc.title
  let pub_date := inc.pub_date
  let s1 := extractServicesOpt inc.description
  if s1 ≠ [] then some (formatIncidents name s1 title pub_date)
  else
    let s2 : List String :=
      match parserType, inc.link with
      | some pt, some l =>
        if pt ≠ "" ∧ l ≠ "" ∧ l ≠ "N/A" then
          match page l with
          | some svcs => svcs
          | none => []
        else []
      | _, _ => []
    if s2 ≠ [] then some (formatIncidents name s2 title pub_date)
    else
      match fallback inc with
      | none => none
      | some fs => some (formatIncidents name fs title pub_date)

/-- Model of `BolnaAdapter._extract_fallback_services` (lines 21–38): keyword
scan over `incident.get('title', '').lower()`.  The `'title'` key is always
present in parser output, so the `.get` default is dead; when the stored
value is Python `None`, `None.lower()` raises `AttributeError`, modelled by
`none`. -/
def bolnaFallback (inc : RawIncident) : Option (List String) :=
  match inc.title with
  | none => none
  | some t =>
    let tl := pyLower t.data
    if hasSub "twilio".data tl then some ["Twilio"]
    else if hasSub "voice".data tl then some ["Voice Service"]
    else if hasSub "api".data tl then some ["API"]
    else if hasSub "webhook".data tl then some ["Webhooks"]
    else some ["Bolna Platform"]

/-- The Bolna adapter's `process_incident_async` instance:
`name = "Bolna"`, `INCIDENT_PARSER_TYPE = "bolna"`, Bolna keyword fallback. -/
def bolnaProcess (page : String → Option (List String))
    (inc : RawIncident) : Option (List Record) :=
  processIncidentAsync "Bolna" (some "bolna") page bolnaFallback inc

/-! ### Timestamp rendering (`format_incident`, `src/core/formatter.py`)

The source attempts
`datetime.fromisoformat(time_created.replace('Z', '+00:00'))` and renders
with `strftime("%Y-%m-%d %H:%M:%S")`; a bare `except:` catches every parsing
failure and passes the original string through.  `fromisoformat` is modelled
after CPython 3.10 (the version floor of `setup.py`): date `YYYY-MM-DD`
taken from the first 10 characters, an arbitrary unchecked separator
character at index 10, time `HH[:MM[:SS[.fff|.ffffff]]]` and an optional
UTC offset `±HH:MM[:SS[.ffffff]]` split at the first `'-'` (else first
`'+'`) of the time part.  Numeric components are modelled as strict digit
runs (CPython's `int()` additionally tolerates surrounding whitespace and a
sign, which no claim exercises). -/

/-- The datetime value built by a successful `fromisoformat` call.  The
offset is kept only because `timezone()` validates it; `strftime` with
`"%Y-%m-%d %H:%M:%S"` never reads it. -/
structure PyDatetime where
  year : Nat
  month : Nat
  day : Nat
  hour : Nat
  minute : Nat
  second : Nat
  micro : Nat
  tzOffsetMicros : Option Int
  deriving DecidableEq, Repr

/-- Read exactly `n` decimal digits, returning their value and the rest. -/
def readDigits : Nat → Nat → List Char → Option (Nat × List Char)
  | 0, acc, s => some (acc, s)
  | _ + 1, _, [] => none
  | n + 1, acc, c :: s =>
    if c.isDigit then readDigits n (acc * 10 + (c.toNat - 48)) s else none

/-- Day count of a month, with the Gregorian leap rule used by `datetime`. -/
def daysInMonth (y m : Nat) : Nat :=
  if m = 2 then
    if y % 4 = 0 ∧ (y % 100 ≠ 0 ∨ y % 400 = 0) then 29 else 28
  else if m = 4 ∨ m = 6 ∨ m = 9 ∨ m = 11 then 30
  else 31

/-- Model of `_parse_isoformat_date` on `date_string[:10]`: exactly
`YYYY-MM-DD` (range validation happens in the `datetime` constructor). -/
def parseIsoDate (s : List Char) : Option (Nat × Nat × Nat) :=
  if s.length = 10 then
    match readDigits 4 0 s with
    | some (y, '-' :: r1) =>
      match readDigits 2 0 r1 with
      | some (m, '-' :: r2) =>
        match readDigits 2 0 r2 with
        | some (d, []) => some (y, m, d)
        | _ => none
      | _ => none
    | _ => none
  else none

/-- Model of `_parse_hh_mm_ss_ff`: `HH`, then optionally `:MM`, then
optionally `:SS`, then optionally `.` followed by exactly 3 or 6 digits. -/
def parseHMSF (t : List Char) : Option (Nat × Nat × Nat × Nat) :=
  match readDigits 2 0 t with
  | some (h, []) => some (h, 0, 0, 0)
  | some (h, ':' :: r1) =>
    match readDigits 2 0 r1 with
    | some (mi, []) => some (h, mi, 0, 0)
    | some (mi, ':' :: r2) =>
      match readDigits 2 0 r2 with
      | some (s, []) => some (h, mi, s, 0)
      | some (s, '.' :: fr) =>
        if fr.length = 3 ∧ fr.all Char.isDigit then
          match readDigits 3 0 fr with
          | some (f, []) => some (h, mi, s, f * 1000)
          | _ => none
        else if fr.length = 6 ∧ fr.all Char.isDigit then
          match readDigits 6 0 fr with
          | some (f, []) => some (h, mi, s, f)
          | _ => none
        else none
      | _ => none
    | _ => none
  | _ => none

/-- Index of the first occurrence of `c`, as Python `s.find(c)` (with `none`
for not-found). -/
def findIdx (c : Char) : List Char → Option Nat
  | [] => none
  | d :: rest =>
    if d = c then some 0
    else
      match findIdx c rest with
      | some i => some (i + 1)
      | none => none

/-- Model of the timezone split of `_parse_isoformat_time`:
`tz_pos = (tstr.find('-') + 1 or tstr.find('+') + 1)` — the first `'-'`
wins when present, else the first `'+'`. -/
def splitTz (t : List Char) : List Char × Option (Bool × List Char) :=
  match findIdx '-' t with
  | some i => (t.take i, some (true, t.drop (i + 1)))
  | none =>
    match findIdx '+' t with
    | some i => (t.take i, some (false, t.drop (i + 1)))
    | none => (t, none)

/-- Model of `_parse_isoformat_time` including the `timezone()` validity
check (`|offset| < 24h`); returns time components and the offset in
microseconds. -/
def parseIsoTime (t : List Char) : Option (Nat × Nat × Nat × Nat × Option Int) :=
  if t.length < 2 then none
  else
    let p := splitTz t
    match parseHMSF p.1 with
    | none => none
    | some (h, mi, s, us) =>
      match p.2 with
      | none => some (h, mi, s, us, none)
      | some (neg, tzstr) =>
        if tzstr.length = 5 ∨ tzstr.length = 8 ∨ tzstr.length = 15 then
          match parseHMSF tzstr with
          | none => none
          | some (th, tmi, ts, tus) =>
            let mag : Int := ((th * 3600 + tmi * 60 + ts) * 1000000 + tus : Nat)
            let off : Int := if neg then -mag else mag
            if mag < 86400000000 then some (h, mi, s, us, some off) else none
        else none

/-- Range validation done by the `datetime(...)` constructor. -/
def mkPyDatetime (y m d h mi s us : Nat) (tz : Option Int) : Option PyDatetime :=
  if 1 ≤ y ∧ y ≤ 9999 ∧ 1 ≤ m ∧ m ≤ 12 ∧ 1 ≤ d ∧ d ≤ daysInMonth y m ∧
      h ≤ 23 ∧ mi ≤ 59 ∧ s ≤ 59 ∧ us ≤ 999999 then
    some ⟨y, m, d, h, mi, s, us, tz⟩
  else none

/-- Model of `datetime.fromisoformat` (CPython 3.10): date from the first 10
characters, time from index 11 on (index 10, the separator, is never
inspected; an empty time part means midnight). -/
def fromisoformatModel (s : List Char) : Option PyDatetime :=
  match parseIsoDate (s.take 10) with
  | none => none
  | some (y, m, d) =>
    let tstr := s.drop 11
    if tstr = [] then mkPyDatetime y m d 0 0 0 0 none
    else
      match parseIsoTime tstr with
      | none => none
      | some (h, mi, sec, us, tz) => mkPyDatetime y m d h mi sec us tz

/-- Decimal digits of `n` zero-padded to width `w` (as `strftime` pads
`%Y`, `%m`, `%d`, `%H`, `%M`, `%S`). -/
def padNat (w n : Nat) : String :=
  let digits := Nat.toDigits 10 n
  (List.replicate (w - digits.length) '0').asString ++ digits.asString

/-- Model of `dt.strftime("%Y-%m-%d %H:%M:%S")`. -/
def strftimeYmdHMS (dt : PyDatetime) : String :=
  padNat 4 dt.year ++ "-" ++ padNat 2 dt.month ++ "-" ++ padNat 2 dt.day ++ " " ++
    padNat 2 dt.hour ++ ":" ++ padNat 2 dt.minute ++ ":" ++ padNat 2 dt.second

/-- The timestamp branch of `format_incident` for a string `time_created`:
replace every `'Z'` with `"+00:00"`, attempt `fromisoformat`, render
canonically on success, and pass the original string through on any failure
(the bare `except:` catches every exception). -/
def formatTimestampStr (s : String) : String :=
  match fromisoformatModel (pyReplaceChar 'Z' "+00:00".data s.data) with
  | some dt => strftimeYmdHMS dt
  | none => s

/-- Model of `format_incident` on a pipeline record.  `time_created` is a
string or `None` in this pipeline (the `isinstance(..., datetime)` branch of
the source is unreachable for records built by `_format_incidents` or the
OpenAI adapter, whose `time_created` comes from feed text or JSON);
`None` renders as `"Unknown Time"`.  A `None` status message renders as the
f-string text `"None"`. -/
def formatIncident (r : Record) : String :=
  let ts :=
    match r.time_created with
    | some s => formatTimestampStr s
    | none => "Unknown Time"
  let statusStr :=
    match r.status_message with
    | some m => m
    | none => "None"
  "[" ++ ts ++ "] Product: " ++ r.group ++ " - " ++ r.component ++
    "\nStatus: " ++ statusStr ++ "\n"

/-! ### The dedup loop (`Watcher.check_incidents`, lines 34–56, and
`Watcher.show_initial_status`, lines 77–121)

The per-source state `self.last_seen_ids[adapter_name]` is a Python set of
incident-id values (which may include `None`); only membership is ever
observed, so it is modelled as a `List (Option String)` with `∈`.  The
watcher is generic in the adapter: `idOf` models `incident.get("id")` and
`p` models `self._process_incident(adapter, incident)`, with `none` for "the
processing raised" — the `try/except` around the whole per-adapter block
then catches the exception, so the remaining incidents of this source are
skipped for this cycle while the already-performed set mutations persist.

Emissions (the `🆕 NEW UPDATE` prints of `check_incidents`) and baseline
displays (the boxed prints of `show_initial_status`) are distinct outputs in
the source and are collected separately here; each is tagged with the id of
the incident it came from.  `calls` is a ghost observation trace for the
temporal claims: one entry `(id, seen)` per invocation of
`self._process_incident`, where `seen` is the seen-set at the moment of the
invocation (after the marking statement that precedes it). -/

/-- Model of `set.add` (idempotent). -/
def addSeen (i : Option String) (s : List (Option String)) : List (Option String) :=
  if i ∈ s then s else i :: s

/-- Result of running one source's incident loop for one cycle. -/
structure CycleResult (ρ : Type) where
  seen : List (Option String)
  emits : List (Option String × List ρ)
  calls : List (Option String × List (Option String))
  deriving DecidableEq, Repr

/-- Model of the `for incident in incidents` loop of
`Watcher.check_incidents` for one source: novelty check, mark, process,
emit when the processed list is non-empty; a processing exception aborts the
rest of the loop for this source. -/
def checkCycle {α ρ : Type} (p : α → Option (List ρ)) (idOf : α → Option String) :
    List α → List (Option String) → CycleResult ρ
  | [], seen => ⟨seen, [], []⟩
  | inc :: rest, seen =>
    let i := idOf inc
    if i ∈ seen then checkCycle p idOf rest seen
    else
      let seen' := i :: seen
      match p inc with
      | none => ⟨seen', [], [(i, seen')]⟩
      | some recs =>
        let r := checkCycle p idOf rest seen'
        ⟨r.seen, (if recs.isEmpty then r.emits else (i, recs) :: r.emits), (i, seen') :: r.calls⟩

/-- Model of the `for incident in incidents[:3]` body of
`show_initial_status`: unconditional (idempotent) mark, process, display
when non-empty; a processing exception aborts the rest of this source's
baseline.  Returns the new seen-set and the displayed record sets (which
are printed inside the startup box, never as `NEW UPDATE` emissions). -/
def baselineAux {α ρ : Type} (p : α → Option (List ρ)) (idOf : α → Option String) :
    List α → List (Option String) → List (Option String) × List (Option String × List ρ)
  | [], seen => (seen, [])
  | inc :: rest, seen =>
    let i := idOf inc
    let seen' := addSeen i seen
    match p inc with
    | none => (seen', [])
    | some recs =>
      let r := baselineAux p idOf rest seen'
      (r.1, if recs.isEmpty then r.2 else (i, recs) :: r.2)

/-- Model of `Watcher.show_initial_status` for one source: the baseline pass
over the first 3 fetched incidents. -/
def showInitialStatus {α ρ : Type} (p : α → Option (List ρ)) (idOf : α → Option String)
    (incidents : List α) (seen : List (Option String)) :
    List (Option String) × List (Option String × List ρ) :=
  baselineAux p idOf (incidents.take 3) seen

/-- Several steady-state cycles for one source, threading the seen-set and
concatenating the emission and call traces. -/
def runCycles {α ρ : Type} (p : α → Option (List ρ)) (idOf : α → Option String) :
    List (List α) → List (Option String) → CycleResult ρ
  | [], seen => ⟨seen, [], []⟩
  | c :: cs, seen =>
    let r := checkCycle p idOf c seen
    let rr := runCycles p idOf cs r.seen
    ⟨rr.seen, r.emits ++ rr.emits, r.calls ++ rr.calls⟩

/-! ### Concrete feed items used by the counterexamples and witnesses -/

/-- Feed item `<item><title></title></item>`: the title element is present
with empty text (`ElementTree` reports `.text = None`), every other element
is absent. -/
def itemEmptyTitle : RssItem :=
  ⟨some none, none, none, none, none⟩

/-- Feed item with guid `incidents/2` and title `Voice down`. -/
def itemVoice : RssItem :=
  ⟨some (some "Voice down"), none, none, none, some (some "incidents/2")⟩

/-- Feed item with guid `i/x1` and title `API issue`. -/
def itemX1 : RssItem :=
  ⟨some (some "API issue"), none, none, none, some (some "i/x1")⟩

/-- Feed item with guid `i/x2` and title `Voice trouble`. -/
def itemX2 : RssItem :=
  ⟨some (some "Voice trouble"), none, none, none, some (some "i/x2")⟩

/-- Incident whose processing raises in the Bolna adapter: empty strategy 1,
no usable link, and a `None` title that crashes the keyword fallback. -/
def incCrash : RawIncident := parseRssItem itemEmptyTitle

/-- Incident processed successfully by the Bolna keyword fallback. -/
def incVoice : RawIncident := parseRssItem itemVoice

/-- Incident with id `x1` for the baseline scenario. -/
def incX1 : RawIncident := parseRssItem itemX1

/-- Incident with id `x2` for the baseline scenario. -/
def incX2 : RawIncident := parseRssItem itemX2

/-- The Bolna adapter's processing function with an unreachable/raising
detail page (`none` for every URL). -/
def bolnaProcDown : RawIncident → Option (List Record) :=
  bolnaProcess (fun _ => none)

/-- Feed item whose guid text `"a/"` ends in a slash (a URL with a trailing
slash), alongside a link and a title. -/
def itemGuidSlash : RssItem :=
  ⟨some (some "T"), some (some "x/y"), none, none, some (some "a/")⟩

/-- Feed item with guid `inc/abc`, a link, and a title. -/
def itemGuidOk : RssItem :=
  ⟨some (some "T"), some (some "l/z"), none, none, some (some "inc/abc")⟩

/-- Feed item with a guid whose trailing segment is non-empty but with no
title element at all. -/
def itemGuidNoTitle : RssItem :=
  ⟨none, none, none, none, some (some "x/y")⟩

/-- Feed item with every element absent. -/
def itemAllAbsent : RssItem :=
  ⟨none, none, none, none, none⟩

/-- Incident whose description embeds an `<li>` service list. -/
def incDesc : RawIncident :=
  parseRssItem ⟨some (some "T"), none, none, some (some "<li>API (down)</li>"), some (some "i/9")⟩

/-! ### Well-formed `<li>` lists for the extraction claims -/

/-- The HTML of one entry `<li>Name (Status)</li>`. -/
def mkLiItem (pair : List Char × List Char) : List Char :=
  "<li>".data ++ pair.1 ++ (' ' :: '(' :: []) ++ pair.2 ++ ")</li>".data

/-- Concatenated HTML of a `<li>Name (Status)</li>` list. -/
def mkLiList (pairs : List (List Char × List Char)) : List Char :=
  (pairs.map mkLiItem).flatten

/-- The same HTML as a string. -/
def mkLiHtml (pairs : List (List Char × List Char)) : String :=
  (mkLiList pairs).asString

/-- Well-formedness of one `(Name, Status)` entry: the name is non-empty and
contains no `'('` (so the greedy group of the regex stops exactly at the
status); the status is non-empty and contains no `')'`; neither contains
`'&'` (so `html.unescape` is the identity on the list). -/
def liOkPair (pair : List Char × List Char) : Prop :=
  pair.1 ≠ [] ∧ '(' ∉ pair.1 ∧ '&' ∉ pair.1 ∧
  pair.2 ≠ [] ∧ ')' ∉ pair.2 ∧ '&' ∉ pair.2

instance (pair : List Char × List Char) : Decidable (liOkPair pair) := by
  unfold liOkPair
  infer_instance

/-! ## Shared lemmas about the string helpers -/

theorem dropPfx_append (p t : List Char) : dropPfx p (p ++ t) = some t := by
  induction p with
  | nil => rfl
  | cons a ps ih => simp [dropPfx, ih]

theorem dropPfx_eq_some {p s r : List Char} (h : dropPfx p s = some r) :
    s = p ++ r := by
  induction p generalizing s with
  | nil =>
    simp only [dropPfx, Option.some.injEq] at h
    simpa using h
  | cons a ps ih =>
    cases s with
    | nil => simp [dropPfx] at h
    | cons b cs =>
      by_cases hab : a = b
      · subst hab
        simp only [dropPfx, if_pos rfl] at h
        simpa using ih h
      · simp [dropPfx, hab] at h

theorem isSome_dropPfx_of_append {p t u r : List Char}
    (h : t ++ u = p ++ r) (hl : p.length ≤ t.length) :
    (dropPfx p t).isSome := by
  induction p generalizing t u r with
  | nil => simp [dropPfx]
  | cons a ps ih =>
    cases t with
    | nil => simp at hl
    | cons b cs =>
      simp only [List.cons_append, List.cons.injEq] at h
      obtain ⟨hab, hrest⟩ := h
      subst hab
      simp only [List.length_cons, Nat.succ_le_succ_iff] at hl
      simpa [dropPfx] using ih hrest hl

theorem hasSub_cons (sep : List Char) (c : Char) (rest : List Char) :
    hasSub sep (c :: rest) = ((dropPfx sep (c :: rest)).isSome || hasSub sep rest) := by
  rfl

theorem splitOnceCh_cons (sep : List Char) (c : Char) (rest : List Char) :
    splitOnceCh sep (c :: rest) =
      (match dropPfx sep (c :: rest) with
       | some r => ([], r)
       | none => (c :: (splitOnceCh sep rest).1, (splitOnceCh sep rest).2)) := by
  rfl

theorem hasSub_append_mid (sep pre post : List Char) (hne : sep ≠ []) :
    hasSub sep (pre ++ (sep ++ post)) = true := by
  induction pre with
  | nil =>
    cases sep with
    | nil => exact absurd rfl hne
    | cons a ps =>
      have h1 : dropPfx (a :: ps) ((a :: ps) ++ post) = some post := dropPfx_append _ _
      rw [List.nil_append, List.cons_append, hasSub_cons, ← List.cons_append, h1]
      rfl
  | cons c cs ih =>
    rw [List.cons_append, hasSub_cons]
    rw [ih]
    simp

theorem splitOnceCh_first (sep post : List Char) (hne : sep ≠ []) :
    ∀ pre : List Char, hasSub sep (pre ++ sep.dropLast) = false →
      splitOnceCh sep (pre ++ (sep ++ post)) = (pre, post) := by
  intro pre
  induction pre with
  | nil =>
    intro _
    cases sep with
    | nil => exact absurd rfl hne
    | cons a ps =>
      have h1 : dropPfx (a :: ps) ((a :: ps) ++ post) = some post := dropPfx_append _ _
      rw [List.nil_append, List.cons_append, splitOnceCh_cons, ← List.cons_append, h1]
  | cons c cs ih =>
    intro h
    rw [List.cons_append, hasSub_cons, Bool.or_eq_false_iff] at h
    obtain ⟨h1, h2⟩ := h
    have hnone : dropPfx sep (c :: (cs ++ (sep ++ post))) = none := by
      cases hd : dropPfx sep (c :: (cs ++ (sep ++ post))) with
      | none => rfl
      | some r =>
        exfalso
        have heq : c :: (cs ++ (sep ++ post)) = sep ++ r := dropPfx_eq_some hd
        have heq2 : (c :: (cs ++ sep.dropLast)) ++ ([sep.getLast hne] ++ post) = sep ++ r := by
          calc (c :: (cs ++ sep.dropLast)) ++ ([sep.getLast hne] ++ post)
              = c :: (cs ++ ((sep.dropLast ++ [sep.getLast hne]) ++ post)) := by
                simp [List.append_assoc]
            _ = c :: (cs ++ (sep ++ post)) := by
                rw [List.dropLast_append_getLast hne]
            _ = sep ++ r := heq
        have hlen : sep.length ≤ (c :: (cs ++ sep.dropLast)).length := by
          have hsep : 1 ≤ sep.length := by
            cases sep with
            | nil => exact absurd rfl hne
            | cons x xs => simp
          simp [List.length_dropLast]
          omega
        have hs := isSome_dropPfx_of_append heq2 hlen
        rw [hs] at h1
        exact Bool.noConfusion h1
    rw [List.cons_append, splitOnceCh_cons, hnone, ih h2]

theorem takeWhile_append_all {p : Char → Bool} {l : List Char} (r : List Char)
    (h : ∀ c ∈ l, p c = true) :
    (l ++ r).takeWhile p = l ++ r.takeWhile p := by
  induction l with
  | nil => rfl
  | cons a as ih =>
    have ha : p a = true := h a (by simp)
    simp [List.takeWhile_cons, ha]
    exact ih fun c hc => h c (by simp [hc])

theorem dropWhile_append_all {p : Char → Bool} {l : List Char} (r : List Char)
    (h : ∀ c ∈ l, p c = true) :
    (l ++ r).dropWhile p = r.dropWhile p := by
  induction l with
  | nil => rfl
  | cons a as ih =>
    have ha : p a = true := h a (by simp)
    simp [List.dropWhile_cons, ha]
    exact ih fun c hc => h c (by simp [hc])

theorem unescapeAux_id {s : List Char} (h : '&' ∉ s) :
    ∀ fuel, unescapeAux fuel s = s := by
  induction s with
  | nil => intro fuel; cases fuel <;> rfl
  | cons c cs ih =>
    intro fuel
    cases fuel with
    | zero => rfl
    | succ n =>
      have hc : ¬ c = '&' := fun hc => h (by simp [hc])
      have hcs : '&' ∉ cs := fun hm => h (by simp [hm])
      simp [unescapeAux, hc, ih hcs]

theorem unescapeCh_id {s : List Char} (h : '&' ∉ s) : unescapeCh s = s :=
  unescapeAux_id h _

theorem pyStrip_append_space (l : List Char) : pyStrip (l ++ [' ']) = pyStrip l := by
  simp [pyStrip, List.reverse_append, List.dropWhile_cons, isPySpace]

/-! ## Shared lemmas about the dedup loop -/

section WatcherLemmas

variable {α ρ : Type} (p : α → Option (List ρ)) (idOf : α → Option String)

theorem checkCycle_seen_mono (incidents : List α) :
    ∀ seen : List (Option String), ∀ i ∈ seen, i ∈ (checkCycle p idOf incidents seen).seen := by
  induction incidents with
  | nil => intro seen i hi; simpa [checkCycle] using hi
  | cons inc rest ih =>
    intro seen i hi
    simp only [checkCycle]
    by_cases hmem : idOf inc ∈ seen
    · simpa [hmem] using ih seen i hi
    · simp only [if_neg hmem]
      cases hp : p inc with
      | none => simpa using Or.inr hi
      | some recs => exact ih _ i (by simp [hi])

theorem checkCycle_all_marked (incidents : List α)
    (h : ∀ inc ∈ incidents, p inc ≠ none) :
    ∀ seen : List (Option String), ∀ inc ∈ incidents,
      idOf inc ∈ (checkCycle p idOf incidents seen).seen := by
  induction incidents with
  | nil => intro seen inc hm; simp at hm
  | cons inc0 rest ih =>
    intro seen inc hm
    have hrest : ∀ i ∈ rest, p i ≠ none := fun i hi => h i (by simp [hi])
    simp only [checkCycle]
    by_cases hmem : idOf inc0 ∈ seen
    · simp only [if_pos hmem]
      rcases List.mem_cons.mp hm with hm | hm
      · subst hm; exact checkCycle_seen_mono p idOf rest seen _ hmem
      · exact ih hrest seen inc hm
    · simp only [if_neg hmem]
      cases hp : p inc0 with
      | none => exact absurd hp (h inc0 (by simp))
      | some recs =>
        rcases List.mem_cons.mp hm with hm | hm
        · subst hm
          exact checkCycle_seen_mono p idOf rest _ _ (by simp)
        · exact ih hrest _ inc hm

theorem checkCycle_all_seen (incidents : List α) :
    ∀ seen : List (Option String), (∀ inc ∈ incidents, idOf inc ∈ seen) →
      checkCycle p idOf incidents seen = ⟨seen, [], []⟩ := by
  induction incidents with
  | nil => intro seen _; rfl
  | cons inc rest ih =>
    intro seen h
    have h0 : idOf inc ∈ seen := h inc (by simp)
    simp only [checkCycle, if_pos h0]
    exact ih seen fun i hi => h i (by simp [hi])

theorem checkCycle_calls_marked (incidents : List α) :
    ∀ seen : List (Option String),
      ∀ pr ∈ (checkCycle p idOf incidents seen).calls,
        pr.1 ∈ pr.2 ∧ pr.1 ∈ (checkCycle p idOf incidents seen).seen := by
  induction incidents with
  | nil => intro seen pr hpr; simp [checkCycle] at hpr
  | cons inc rest ih =>
    intro seen pr hpr
    simp only [checkCycle] at hpr ⊢
    by_cases hmem : idOf inc ∈ seen
    · simp only [if_pos hmem] at hpr ⊢
      exact ih seen pr hpr
    · simp only [if_neg hmem] at hpr ⊢
      cases hp : p inc with
      | none =>
        rw [hp] at hpr
        have hpr' : pr = (idOf inc, idOf inc :: seen) := by simpa using hpr
        subst hpr'
        exact ⟨by simp, by simp⟩
      | some recs =>
        rw [hp] at hpr
        have hpr' : pr = (idOf inc, idOf inc :: seen) ∨
            pr ∈ (checkCycle p idOf rest (idOf inc :: seen)).calls := by
          simpa using hpr
        show pr.1 ∈ pr.2 ∧ pr.1 ∈ (checkCycle p idOf rest (idOf inc :: seen)).seen
        rcases hpr' with hpr' | hpr'
        · subst hpr'
          exact ⟨by simp, checkCycle_seen_mono p idOf rest _ _ (by simp)⟩
        · exact ih _ pr hpr'

theorem checkCycle_no_touch (incidents : List α) (i : Option String) :
    ∀ seen : List (Option String), i ∈ seen →
      (∀ pr ∈ (checkCycle p idOf incidents seen).calls, pr.1 ≠ i) ∧
      (∀ e ∈ (checkCycle p idOf incidents seen).emits, e.1 ≠ i) := by
  induction incidents with
  | nil => intro seen _; simp [checkCycle]
  | cons inc rest ih =>
    intro seen hi
    simp only [checkCycle]
    by_cases hmem : idOf inc ∈ seen
    · simp only [if_pos hmem]
      exact ih seen hi
    · have hne : idOf inc ≠ i := fun h => hmem (h ▸ hi)
      simp only [if_neg hmem]
      cases hp : p inc with
      | none =>
        constructor
        · intro pr hpr
          simp at hpr
          subst hpr
          exact hne
        · intro e he; simp at he
      | some recs =>
        have ihr := ih (idOf inc :: seen) (by simp [hi])
        constructor
        · intro pr hpr
          simp only [List.mem_cons] at hpr
          rcases hpr with hpr | hpr
          · subst hpr; exact hne
          · exact ihr.1 pr hpr
        · intro e he
          by_cases hrec : recs.isEmpty
          · simp only [if_pos hrec] at he
            exact ihr.2 e he
          · simp only [if_neg hrec, List.mem_cons] at he
            rcases he with he | he
            · subst he; exact hne
            · exact ihr.2 e he

theorem runCycles_seen_mono (cycles : List (List α)) :
    ∀ seen : List (Option String), ∀ i ∈ seen, i ∈ (runCycles p idOf cycles seen).seen := by
  induction cycles with
  | nil => intro seen i hi; simpa [runCycles] using hi
  | cons c cs ih =>
    intro seen i hi
    simp only [runCycles]
    exact ih _ i (checkCycle_seen_mono p idOf c seen i hi)

theorem runCycles_no_touch (cycles : List (List α)) (i : Option String) :
    ∀ seen : List (Option String), i ∈ seen →
      (∀ pr ∈ (runCycles p idOf cycles seen).calls, pr.1 ≠ i) ∧
      (∀ e ∈ (runCycles p idOf cycles seen).emits, e.1 ≠ i) := by
  induction cycles with
  | nil => intro seen _; simp [runCycles]
  | cons c cs ih =>
    intro seen hi
    have h1 := checkCycle_no_touch p idOf c i seen hi
    have h2 := ih (checkCycle p idOf c seen).seen (checkCycle_seen_mono p idOf c seen i hi)
    simp only [runCycles]
    constructor
    · intro pr hpr
      simp only [List.mem_append] at hpr
      rcases hpr with hpr | hpr
      · exact h1.1 pr hpr
      · exact h2.1 pr hpr
    · intro e he
      simp only [List.mem_append] at he
      rcases he with he | he
      · exact h1.2 e he
      · exact h2.2 e he

theorem baselineAux_seen_mono (incidents : List α) :
    ∀ seen : List (Option String), ∀ i ∈ seen, i ∈ (baselineAux p idOf incidents seen).1 := by
  induction incidents with
  | nil => intro seen i hi; simpa [baselineAux] using hi
  | cons inc rest ih =>
    intro seen i hi
    have hadd : i ∈ addSeen (idOf inc) seen := by
      unfold addSeen
      by_cases hmem : idOf inc ∈ seen
      · simpa [hmem] using hi
      · simp [hmem, hi]
    simp only [baselineAux]
    cases hp : p inc with
    | none => exact hadd
    | some recs => exact ih _ i hadd

theorem baselineAux_all_marked (incidents : List α)
    (h : ∀ inc ∈ incidents, p inc ≠ none) :
    ∀ seen : List (Option String), ∀ inc ∈ incidents,
      idOf inc ∈ (baselineAux p idOf incidents seen).1 := by
  induction incidents with
  | nil => intro seen inc hm; simp at hm
  | cons inc0 rest ih =>
    intro seen inc hm
    have hrest : ∀ i ∈ rest, p i ≠ none := fun i hi => h i (by simp [hi])
    have hadd : idOf inc0 ∈ addSeen (idOf inc0) seen := by
      unfold addSeen
      by_cases hmem : idOf inc0 ∈ seen
      · simp [hmem]
      · simp [hmem]
    simp only [baselineAux]
    cases hp : p inc0 with
    | none => exact absurd hp (h inc0 (by simp))
    | some recs =>
      rcases List.mem_cons.mp hm with hm | hm
      · subst hm
        exact baselineAux_seen_mono p idOf rest _ _ hadd
      · exact ih hrest _ inc hm

end WatcherLemmas

/-! ## Claim C1 -/

/-- Claim C1, counterexample.  The claim asserts that for a source whose
fetched raw-incident list is unchanged between two consecutive cycles, the
second cycle emits zero new records, because every id of the first cycle's
list is in the seen-set afterwards.  This fails when processing raises
during the first cycle: with the real Bolna adapter, the feed item
`<item><title></title></item>` yields a `None` title, whose keyword fallback
raises (`None.lower()`), aborting the rest of the source's loop; the later
incident `incVoice` of the same fetched list is therefore not yet seen, and
the second cycle — over the identical list — emits a record for it. -/
theorem c1_counterexample :
    (checkCycle bolnaProcDown RawIncident.id [incCrash, incVoice]
        (checkCycle bolnaProcDown RawIncident.id [incCrash, incVoice] []).seen).emits =
      [(some "2", [⟨"Bolna", "Voice Service", some "N/A", some "Voice down"⟩])] ∧
    (checkCycle bolnaProcDown RawIncident.id [incCrash, incVoice]
        (checkCycle bolnaProcDown RawIncident.id [incCrash, incVoice] []).seen).emits ≠ [] ∧
    incVoice.id ∉ (checkCycle bolnaProcDown RawIncident.id [incCrash, incVoice] []).seen := by
  decide

/-- Claim C1, amended: provided processing raises no exception on the
incidents of the first cycle (so the per-source loop is not aborted), every
incident id of the list is in the seen-set after the first cycle, and a
second cycle over the unchanged list emits zero new records (indeed it
leaves the state unchanged and never calls processing). -/
theorem c1_amended_dedup {α ρ : Type} (p : α → Option (List ρ)) (idOf : α → Option String)
    (incidents : List α) (seen0 : List (Option String))
    (h : ∀ inc ∈ incidents, p inc ≠ none) :
    (∀ inc ∈ incidents, idOf inc ∈ (checkCycle p idOf incidents seen0).seen) ∧
    checkCycle p idOf incidents (checkCycle p idOf incidents seen0).seen =
      ⟨(checkCycle p idOf incidents seen0).seen, [], []⟩ := by
  have h1 := checkCycle_all_marked p idOf incidents h seen0
  exact ⟨h1, checkCycle_all_seen p idOf incidents _ h1⟩

/-- Witness for `c1_amended_dedup`: the Bolna adapter on a one-incident feed
whose processing succeeds; the second cycle over the unchanged list emits
and calls nothing. -/
theorem c1_amended_dedup_witness :
    checkCycle bolnaProcDown RawIncident.id [incVoice]
        (checkCycle bolnaProcDown RawIncident.id [incVoice] []).seen =
      ⟨(checkCycle bolnaProcDown RawIncident.id [incVoice] []).seen, [], []⟩ :=
  (c1_amended_dedup bolnaProcDown RawIncident.id [incVoice] [] (by decide)).2

/-! ## Claim C2 -/

/-- Claim C2: whenever processing is attempted for an incident id confirmed
novel during a cycle (each such attempt is one entry `pr` of the call
trace), the id is already in the seen-set recorded at the moment of the
attempt — marking precedes extraction, even when extraction then raises —
and the id is in the final seen-set of the cycle; consequently no later
cycle of the same process ever attempts to process or emits a record for
that id. -/
theorem c2_marked_before_processing_never_again {α ρ : Type}
    (p : α → Option (List ρ)) (idOf : α → Option String)
    (incidents : List α) (seen : List (Option String))
    (pr : Option String × List (Option String))
    (hpr : pr ∈ (checkCycle p idOf incidents seen).calls)
    (cycles : List (List α)) :
    pr.1 ∈ pr.2 ∧
    pr.1 ∈ (checkCycle p idOf incidents seen).seen ∧
    (∀ q ∈ (runCycles p idOf cycles (checkCycle p idOf incidents seen).seen).calls,
      q.1 ≠ pr.1) ∧
    (∀ e ∈ (runCycles p idOf cycles (checkCycle p idOf incidents seen).seen).emits,
      e.1 ≠ pr.1) := by
  have h1 := checkCycle_calls_marked p idOf incidents seen pr hpr
  have h2 := runCycles_no_touch p idOf cycles pr.1 _ h1.2
  exact ⟨h1.1, h1.2, h2.1, h2.2⟩

/-- Witness for `c2_marked_before_processing_never_again`: the crashing
Bolna incident is marked seen at the moment its (failing) processing is
attempted, and is in the cycle's final seen-set. -/
theorem c2_marked_before_processing_never_again_witness :
    (none : Option String) ∈ [(none : Option String)] ∧
    (none : Option String) ∈ (checkCycle bolnaProcDown RawIncident.id [incCrash] []).seen := by
  have h := c2_marked_before_processing_never_again bolnaProcDown RawIncident.id
    [incCrash] [] (none, [none]) (by decide) [[incCrash, incVoice]]
  exact ⟨h.1, h.2.1⟩

/-! ## Claim C3 -/

/-- Claim C3, counterexample.  The claim asserts the baseline pass marks the
ids of up to the 3 most-recent incidents as seen.  When processing raises
during the baseline (here: the Bolna adapter on a feed item with an empty
`<title/>`), the remaining incidents of the first 3 are not marked:
`incVoice` is among the first 3 but its id is absent from the seen-set after
the baseline. -/
theorem c3_counterexample :
    incVoice ∈ ([incCrash, incVoice].take 3) ∧
    incVoice.id ∉ (showInitialStatus bolnaProcDown RawIncident.id [incCrash, incVoice] []).1 := by
  decide

/-- Claim C3, amended: provided processing raises no exception on the first
3 fetched incidents, the baseline pass marks all their ids as seen (it
displays records inside the startup box but emits no new-update records —
`show_initial_status` has no emission output at all); and in the concrete
scenario, after a baseline over `[x1]`, a steady-state cycle over
`[x1, x2]` emits exactly one record set, for `x2` only. -/
theorem c3_amended_baseline {α ρ : Type} (p : α → Option (List ρ)) (idOf : α → Option String)
    (incidents : List α) (seen : List (Option String))
    (h : ∀ inc ∈ incidents.take 3, p inc ≠ none) :
    (∀ inc ∈ incidents.take 3, idOf inc ∈ (showInitialStatus p idOf incidents seen).1) ∧
    (checkCycle bolnaProcDown RawIncident.id [incX1, incX2]
        (showInitialStatus bolnaProcDown RawIncident.id [incX1] []).1).emits =
      [(some "x2", [⟨"Bolna", "Voice Service", some "N/A", some "Voice trouble"⟩])] := by
  constructor
  · intro inc hm
    exact baselineAux_all_marked p idOf (incidents.take 3) h seen inc hm
  · decide

/-- Witness for `c3_amended_baseline`: the id `x1` is marked seen by the
baseline over the one-incident feed `[incX1]`. -/
theorem c3_amended_baseline_witness :
    RawIncident.id incX1 ∈ (showInitialStatus bolnaProcDown RawIncident.id [incX1] []).1 :=
  (c3_amended_baseline bolnaProcDown RawIncident.id [incX1] [] (by decide)).1 incX1 (by decide)

/-! ## Claim C4 -/

/-- Claim C4, counterexample.  The claim asserts that when a GUID element
with non-empty text is present, the identity is the GUID-derived value.
Two failures: (1) for guid text `"a/"` (a URL with a trailing slash) the
derived segment is `""`, which Python `or` treats as falsy, so the identity
silently becomes the title text `"T"`; (2) when the title element is absent
the conditional-expression precedence of
`incident_id or title.text if title is not None else 'unknown'` makes the
identity the constant `"unknown"` even though the guid derives `"y"`. -/
theorem c4_counterexample :
    truthyText itemGuidSlash.guid = some "a/" ∧
    (parseRssItem itemGuidSlash).id = some "T" ∧
    (parseRssItem itemGuidSlash).id ≠ some (lastSegment "a/") ∧
    truthyText itemGuidNoTitle.guid = some "x/y" ∧
    (parseRssItem itemGuidNoTitle).id = some "unknown" ∧
    (parseRssItem itemGuidNoTitle).id ≠ some (lastSegment "x/y") := by
  decide

/-- Claim C4, amended: when the title element is present, the identity
precedence is — GUID with non-empty text and non-empty trailing path
segment; else link with non-empty text and non-empty trailing path segment
(never the link when the guid text is truthy); else the title text.  A
derived segment that is the empty string is treated as missing (falsy) at
the id-assembly step, and an absent title element forces the identity to
the constant `"unknown"` regardless of guid and link. -/
theorem c4_amended_identity (it : RssItem) :
    (∀ g t, it.title = some t → truthyText it.guid = some g → lastSegment g ≠ "" →
      (parseRssItem it).id = some (lastSegment g)) ∧
    (∀ l t, it.title = some t → truthyText it.guid = none → truthyText it.link = some l →
      lastSegment l ≠ "" → (parseRssItem it).id = some (lastSegment l)) ∧
    (∀ t, it.title = some t →
      (rssIncidentIdRaw it = none ∨ rssIncidentIdRaw it = some "") →
      (parseRssItem it).id = t) ∧
    (it.title = none → (parseRssItem it).id = some "unknown") := by
  refine ⟨?_, ?_, ?_, ?_⟩
  · intro g t ht hg hseg
    simp [parseRssItem, rssIncidentId, rssIncidentIdRaw, ht, hg, hseg]
  · intro l t ht hg hl hseg
    simp [parseRssItem, rssIncidentId, rssIncidentIdRaw, ht, hg, hl, hseg]
  · intro t ht hraw
    rcases hraw with hraw | hraw <;>
      simp [parseRssItem, rssIncidentId, ht, hraw]
  · intro ht
    simp [parseRssItem, rssIncidentId, ht]

/-- Witness for `c4_amended_identity`: with guid `inc/abc`, a link `l/z` and
a title `T` all present, the identity is the guid's trailing segment. -/
theorem c4_amended_identity_witness :
    (parseRssItem itemGuidOk).id = some (lastSegment "inc/abc") ∧
    lastSegment "inc/abc" = "abc" :=
  ⟨(c4_amended_identity itemGuidOk).1 "inc/abc" (some "T") (by decide) (by decide) (by decide),
   by decide⟩

/-! ## Claim C10 -/

/-- Claim C10, counterexample.  The claim asserts the parsed `title` field
is never absent because a missing element is replaced by `"N/A"`.  But for a
title element that is present with empty text (`<title></title>`,
`ElementTree` `.text = None`), the stored value is Python `None`, not a
string — and in particular not `"N/A"`. -/
theorem c10_counterexample :
    itemEmptyTitle.title = some none ∧
    (parseRssItem itemEmptyTitle).title = none ∧
    (parseRssItem itemEmptyTitle).title ≠ some "N/A" := by
  decide

/-- Claim C10, amended: the four fields are always present as dictionary
keys; an element that is entirely absent is replaced by the literal
`"N/A"`, but an element present with empty text stores `None` (so the
values are not guaranteed to be strings).  The detail-page strategy treats
a link equal to `"N/A"` the same as an empty link: the page oracle is never
consulted, and the processing result coincides with that of an empty
link. -/
theorem c10_amended_na_fields (it : RssItem) (name : String) (pt : Option String)
    (page page' : String → Option (List String)) (fb : RawIncident → Option (List String))
    (inc : RawIncident) :
    (it.title = none → (parseRssItem it).title = some "N/A") ∧
    (it.link = none → (parseRssItem it).link = some "N/A") ∧
    (it.pub_date = none → (parseRssItem it).pub_date = some "N/A") ∧
    (it.description = none → (parseRssItem it).description = some "N/A") ∧
    (inc.link = some "N/A" →
      processIncidentAsync name pt page fb inc = processIncidentAsync name pt page' fb inc) ∧
    (processIncidentAsync name pt page bolnaFallback { inc with link := some "N/A" } =
      processIncidentAsync name pt page bolnaFallback { inc with link := some "" }) := by
  refine ⟨?_, ?_, ?_, ?_, ?_, ?_⟩
  · intro h; simp [parseRssItem, fieldOrNA, h]
  · intro h; simp [parseRssItem, fieldOrNA, h]
  · intro h; simp [parseRssItem, fieldOrNA, h]
  · intro h; simp [parseRssItem, fieldOrNA, h]
  · intro h
    cases pt with
    | none => simp [processIncidentAsync, h]
    | some q => simp [processIncidentAsync, h]
  · cases pt with
    | none => simp [processIncidentAsync, bolnaFallback]
    | some q => simp [processIncidentAsync, bolnaFallback]

/-- Witness for `c10_amended_na_fields`: all-absent elements parse to
`"N/A"` fields, and for `incVoice` (whose link is `"N/A"`) the processing
result is independent of the page oracle. -/
theorem c10_amended_na_fields_witness :
    (parseRssItem itemAllAbsent).title = some "N/A" ∧
    processIncidentAsync "Bolna" (some "bolna") (fun _ => some ["X"]) bolnaFallback incVoice =
      processIncidentAsync "Bolna" (some "bolna") (fun _ => none) bolnaFallback incVoice := by
  have h := c10_amended_na_fields itemAllAbsent "Bolna" (some "bolna")
    (fun _ => some ["X"]) (fun _ => none) bolnaFallback incVoice
  exact ⟨h.1 rfl, h.2.2.2.2.1 (by decide)⟩

theorem data_asString (l : List Char) : (List.asString l).data = l := rfl

theorem pyReplaceChar_not_mem {old : Char} (new : List Char) :
    ∀ b : List Char, old ∉ b → pyReplaceChar old new b = b := by
  intro b
  induction b with
  | nil => intro _; rfl
  | cons c cs ih =>
    intro h
    have hc : ¬ c = old := fun hc => h (by simp [hc])
    have hcs : old ∉ cs := fun hm => h (by simp [hm])
    simp [pyReplaceChar, hc, ih hcs]

theorem pyReplaceChar_trailing {old : Char} (new : List Char) :
    ∀ b : List Char, old ∉ b → pyReplaceChar old new (b ++ [old]) = b ++ new := by
  intro b
  induction b with
  | nil => intro _; simp [pyReplaceChar]
  | cons c cs ih =>
    intro h
    have hc : ¬ c = old := fun hc => h (by simp [hc])
    have hcs : old ∉ cs := fun hm => h (by simp [hm])
    simp [pyReplaceChar, hc, ih hcs]

/-! ## Claim C6 -/

/-- Claim C6: the extraction cascade short-circuits.  When strategy 1 (the
embedded-HTML scan of the description) yields a non-empty list, the result
is exactly the normalization of that list — for every page oracle and every
fallback, so neither the detail-page strategy nor the fallback is invoked.
When strategy 1 is empty and the detail-page strategy runs and yields a
non-empty list, the result is exactly the normalization of that list — for
every fallback.  In both cases the result normalizes a single strategy's
list; results of different strategies are never merged. -/
theorem c6_cascade_short_circuit (name : String) (pt : Option String) (inc : RawIncident) :
    (∀ (page : String → Option (List String)) (fb : RawIncident → Option (List String)),
      extractServicesOpt inc.description ≠ [] →
      processIncidentAsync name pt page fb inc =
        some (formatIncidents name (extractServicesOpt inc.description) inc.title inc.pub_date)) ∧
    (∀ (page : String → Option (List String)) (fb : RawIncident → Option (List String))
      (q l : String) (svcs : List String),
      extractServicesOpt inc.description = [] →
      pt = some q → q ≠ "" → inc.link = some l → l ≠ "" → l ≠ "N/A" →
      page l = some svcs → svcs ≠ [] →
      processIncidentAsync name pt page fb inc =
        some (formatIncidents name svcs inc.title inc.pub_date)) := by
  constructor
  · intro page fb h1
    simp [processIncidentAsync, h1]
  · intro page fb q l svcs h1 hpt hq hlink hl1 hl2 hpage hsvcs
    subst hpt
    simp [processIncidentAsync, h1, hq, hlink, hl1, hl2, hpage, hsvcs]

/-- Witness for `c6_cascade_short_circuit`: for an incident whose
description embeds `<li>API (down)</li>`, the result is strategy 1's
normalized list even though the page oracle would return a non-empty list
and the Bolna fallback would also return one. -/
theorem c6_cascade_short_circuit_witness :
    processIncidentAsync "Bolna" (some "bolna") (fun _ => some ["X"]) bolnaFallback incDesc =
      some (formatIncidents "Bolna" (extractServicesOpt incDesc.description)
        incDesc.title incDesc.pub_date) ∧
    extractServicesOpt incDesc.description = ["API"] := by
  refine ⟨?_, by decide⟩
  exact (c6_cascade_short_circuit "Bolna" (some "bolna") incDesc).1
    (fun _ => some ["X"]) bolnaFallback (by decide)

/-! ## Claim C7 -/

/-- Claim C7, counterexample.  The claim asserts extraction always returns a
non-empty list when strategy 1 is empty and the detail page raises, because
the keyword fallback is terminal and never empty.  For the incident parsed
from `<item><title></title></item>` the title value is `None`, the Bolna
keyword fallback raises (`None.lower()`), and `process_incident_async`
returns no list at all — the exception propagates to the watcher. -/
theorem c7_counterexample :
    extractServicesOpt incCrash.description = [] ∧
    bolnaFallback incCrash = none ∧
    bolnaProcDown incCrash = none := by
  decide

/-- Claim C7, amended: for every incident whose title value is a string
(which holds whenever the title element is absent — giving `"N/A"` — or has
non-empty text; only a present-but-empty title element yields `None`), when
strategy 1 is empty and every detail-page fetch raises (the exception is
swallowed), extraction still returns a non-empty list: the Bolna keyword
fallback always returns exactly one service for a string title. -/
theorem c7_amended_terminal_fallback (page : String → Option (List String))
    (inc : RawIncident) (t : String) (ht : inc.title = some t)
    (h1 : extractServicesOpt inc.description = [])
    (hpage : ∀ l, page l = none) :
    ∃ recs, processIncidentAsync "Bolna" (some "bolna") page bolnaFallback inc = some recs ∧
      recs ≠ [] := by
  have hfb : ∃ fs, bolnaFallback inc = some fs ∧ fs ≠ [] := by
    simp only [bolnaFallback, ht]
    split_ifs <;> exact ⟨_, rfl, by simp⟩
  obtain ⟨fs, hfs, hfsne⟩ := hfb
  refine ⟨formatIncidents "Bolna" fs inc.title inc.pub_date, ?_, ?_⟩
  · cases hlink : inc.link with
    | none => simp [processIncidentAsync, h1, hlink, hfs]
    | some l => simp [processIncidentAsync, h1, hlink, hpage, hfs]
  · simp [formatIncidents]
    exact hfsne

/-- Witness for `c7_amended_terminal_fallback`: the Bolna adapter with a
raising detail page still yields a non-empty result for `incVoice`. -/
theorem c7_amended_terminal_fallback_witness :
    ∃ recs, processIncidentAsync "Bolna" (some "bolna") (fun _ => none) bolnaFallback incVoice =
      some recs ∧ recs ≠ [] :=
  c7_amended_terminal_fallback (fun _ => none) incVoice "Voice down"
    (by decide) (by decide) (fun _ => rfl)

/-! ## Claim C8 -/

/-- Claim C8: normalization splits each service string on the first
occurrence of `" - "` (the hypothesis `hasSub sepDash (pre ++
sepDash.dropLast) = false` says no occurrence starts inside `pre`, i.e. the
exhibited occurrence is the first) into a group and a component, both
stripped; a service string not containing the separator keeps the whole
string as the component, unchanged, with the source's display name as the
group. -/
theorem c8_normalizer_split (name : String) (title pd : Option String) :
    (∀ pre post : List Char, hasSub sepDash (pre ++ sepDash.dropLast) = false →
      formatIncidents name [(pre ++ (sepDash ++ post)).asString] title pd =
        [⟨(pyStrip pre).asString, (pyStrip post).asString, pd, title⟩]) ∧
    (∀ svc : String, hasSub sepDash svc.data = false →
      formatIncidents name [svc] title pd = [⟨name, svc, pd, title⟩]) := by
  constructor
  · intro pre post hfirst
    have hne : sepDash ≠ [] := by decide
    have hmem : hasSub sepDash ((pre ++ (sepDash ++ post)).asString).data = true := by
      rw [data_asString]
      exact hasSub_append_mid sepDash pre post hne
    have hsplit : splitOnceCh sepDash ((pre ++ (sepDash ++ post)).asString).data =
        (pre, post) := by
      rw [data_asString]
      exact splitOnceCh_first sepDash post hne pre hfirst
    simp [formatIncidents, hmem, hsplit]
  · intro svc h
    simp [formatIncidents, h]

/-- Witness for `c8_normalizer_split`: `"API - Chat Completions"` splits
into group `"API"` and component `"Chat Completions"`, and `"Webhooks"`
with display name `"Bolna"` maps to group `"Bolna"` and component
`"Webhooks"`. -/
theorem c8_normalizer_split_witness :
    formatIncidents "OpenAI" [("API".data ++ (sepDash ++ "Chat Completions".data)).asString]
        (some "T") (some "P") =
      [⟨(pyStrip "API".data).asString, (pyStrip "Chat Completions".data).asString,
        some "P", some "T"⟩] ∧
    ("API".data ++ (sepDash ++ "Chat Completions".data)).asString = "API - Chat Completions" ∧
    (pyStrip "API".data).asString = "API" ∧
    (pyStrip "Chat Completions".data).asString = "Chat Completions" ∧
    formatIncidents "Bolna" ["Webhooks"] (some "T") (some "P") =
      [⟨"Bolna", "Webhooks", some "P", some "T"⟩] := by
  refine ⟨?_, by decide, by decide, by decide, ?_⟩
  · exact (c8_normalizer_split "OpenAI" (some "T") (some "P")).1
      "API".data "Chat Completions".data (by decide)
  · exact (c8_normalizer_split "Bolna" (some "T") (some "P")).2 "Webhooks" (by decide)

/-! ## Claim C9 -/

/-- Claim C9: rendering a string timestamp attempts ISO-8601 parsing with
every `'Z'` first replaced by `"+00:00"` — in particular a trailing `Z` is
accepted as the UTC offset — and on success produces the canonical
zero-padded `YYYY-MM-DD HH:MM:SS` form; every string on which the parse
fails is passed through unchanged (the bare `except:` of the source lets no
exception escape, and the model is a total function); and `format_incident`
embeds exactly this timestamp rendering in its output line. -/
theorem c9_timestamp_rendering (b s g c : String) (dt : PyDatetime) (sm : Option String) :
    ('Z' ∉ b.data → fromisoformatModel (b.data ++ "+00:00".data) = some dt →
      formatTimestampStr (b ++ "Z") = strftimeYmdHMS dt) ∧
    ('Z' ∉ s.data → fromisoformatModel s.data = some dt →
      formatTimestampStr s = strftimeYmdHMS dt) ∧
    (fromisoformatModel (pyReplaceChar 'Z' "+00:00".data s.data) = none →
      formatTimestampStr s = s) ∧
    (formatIncident ⟨g, c, some s, sm⟩ =
      "[" ++ formatTimestampStr s ++ "] Product: " ++ g ++ " - " ++ c ++
        "\nStatus: " ++ (match sm with | some m => m | none => "None") ++ "\n") := by
  refine ⟨?_, ?_, ?_, rfl⟩
  · intro hz hp
    have hdata : (b ++ "Z").data = b.data ++ ['Z'] := by
      simp [String.data_append]
    have hrepl : pyReplaceChar 'Z' "+00:00".data (b.data ++ ['Z']) =
        b.data ++ "+00:00".data :=
      pyReplaceChar_trailing _ b.data hz
    show (match fromisoformatModel (pyReplaceChar 'Z' "+00:00".data (b ++ "Z").data) with
      | some dt => strftimeYmdHMS dt
      | none => b ++ "Z") = strftimeYmdHMS dt
    rw [hdata, hrepl, hp]
  · intro hz hp
    have hrepl : pyReplaceChar 'Z' "+00:00".data s.data = s.data :=
      pyReplaceChar_not_mem _ s.data hz
    simp [formatTimestampStr, hrepl, hp]
  · intro hp
    simp [formatTimestampStr, hp]

/-- Witness for `c9_timestamp_rendering`: `"2025-11-03T14:32:00Z"` renders
as `"2025-11-03 14:32:00"`, and the unparseable `"not a date"` passes
through unchanged. -/
theorem c9_timestamp_rendering_witness :
    formatTimestampStr ("2025-11-03T14:32:00" ++ "Z") =
      strftimeYmdHMS ⟨2025, 11, 3, 14, 32, 0, 0, some 0⟩ ∧
    ("2025-11-03T14:32:00" ++ "Z" : String) = "2025-11-03T14:32:00Z" ∧
    strftimeYmdHMS ⟨2025, 11, 3, 14, 32, 0, 0, some 0⟩ = "2025-11-03 14:32:00" ∧
    formatTimestampStr "not a date" = "not a date" := by
  refine ⟨?_, by decide, by decide, ?_⟩
  · exact (c9_timestamp_rendering "2025-11-03T14:32:00" "x" "g" "c"
      ⟨2025, 11, 3, 14, 32, 0, 0, some 0⟩ none).1 (by decide) (by decide)
  · exact (c9_timestamp_rendering "b" "not a date" "g" "c"
      ⟨2025, 11, 3, 14, 32, 0, 0, some 0⟩ none).2.2.1 (by decide)

/-! ## Shared lemmas about the `<li>` scan -/

theorem findLiAux_nil (fuel : Nat) : findLiAux fuel [] = [] := by
  cases fuel <;> rfl

theorem findLiAux_of_match (f : Nat) (s : List Char) (hs : s ≠ []) {g r5 : List Char}
    (hm : matchLiAt s = some (g, r5)) :
    findLiAux (f + 1) s = g :: findLiAux f r5 := by
  cases s with
  | nil => exact absurd rfl hs
  | cons c t =>
    show (match matchLiAt (c :: t) with
      | some (g, r5) => g :: findLiAux f r5
      | none => findLiAux f t) = g :: findLiAux f r5
    rw [hm]

theorem matchLiAt_mkLiItem (n st rest : List Char) (hp : '(' ∉ n) (hst : st ≠ [])
    (hpr : ')' ∉ st) :
    matchLiAt (mkLiItem (n, st) ++ rest) = some (n ++ [' '], rest) := by
  have hnall : ∀ c ∈ n ++ [' '], notLParen c = true := by
    intro c hc
    rcases List.mem_append.mp hc with hc | hc
    · simp only [notLParen, decide_eq_true_eq]
      intro he
      exact hp (he ▸ hc)
    · simp only [List.mem_singleton] at hc
      subst hc
      decide
  have hstall : ∀ c ∈ st, notRParen c = true := by
    intro c hc
    simp only [notRParen, decide_eq_true_eq]
    intro he
    exact hpr (he ▸ hc)
  have hT : mkLiItem (n, st) ++ rest =
      "<li>".data ++ ((n ++ [' ']) ++ ('(' :: (st ++ (')' :: ("</li>".data ++ rest))))) := by
    simp [mkLiItem]
  have ht1 : ((n ++ [' ']) ++ ('(' :: (st ++ (')' :: ("</li>".data ++ rest))))).takeWhile
      notLParen = n ++ [' '] := by
    rw [takeWhile_append_all _ hnall]
    show (n ++ [' ']) ++ ([] : List Char) = n ++ [' ']
    simp
  have hd1 : ((n ++ [' ']) ++ ('(' :: (st ++ (')' :: ("</li>".data ++ rest))))).dropWhile
      notLParen = '(' :: (st ++ (')' :: ("</li>".data ++ rest))) := by
    rw [dropWhile_append_all _ hnall]
    rfl
  have ht2 : (st ++ (')' :: ("</li>".data ++ rest))).takeWhile notRParen = st := by
    rw [takeWhile_append_all _ hstall]
    show st ++ ([] : List Char) = st
    simp
  have hd2 : (st ++ (')' :: ("</li>".data ++ rest))).dropWhile notRParen =
      ')' :: ("</li>".data ++ rest) := by
    rw [dropWhile_append_all _ hstall]
    rfl
  have h3 : dropPfx "</li>".data ("</li>".data ++ rest) = some rest := dropPfx_append _ _
  rw [hT]
  simp only [matchLiAt, dropPfx_append, ht1, hd1, ht2, hd2, h3]
  simp [hst]

theorem mkLiItem_length (n st : List Char) :
    (mkLiItem (n, st)).length = n.length + st.length + 12 := by
  simp [mkLiItem]
  omega

theorem mkLiItem_ne_nil (n st : List Char) : mkLiItem (n, st) ≠ [] := by
  intro h
  have := congrArg List.length h
  rw [mkLiItem_length] at this
  simp at this

theorem amp_not_mem_mkLiItem {n st : List Char} (ha : '&' ∉ n) (ha2 : '&' ∉ st) :
    '&' ∉ mkLiItem (n, st) := by
  intro hmem
  simp only [mkLiItem] at hmem
  rcases List.mem_append.mp hmem with h | h
  · rcases List.mem_append.mp h with h | h
    · rcases List.mem_append.mp h with h | h
      · rcases List.mem_append.mp h with h | h
        · exact absurd h (by decide)
        · exact ha h
      · exact absurd h (by decide)
    · exact ha2 h
  · exact absurd h (by decide)

theorem amp_not_mem_mkLiList (pairs : List (List Char × List Char))
    (hok : ∀ q ∈ pairs, liOkPair q) : '&' ∉ mkLiList pairs := by
  induction pairs with
  | nil => simp [mkLiList]
  | cons q qs ih =>
    obtain ⟨n, st⟩ := q
    obtain ⟨_, _, ha, _, _, ha2⟩ := hok (n, st) (by simp)
    have hqs := ih fun r hr => hok r (by simp [hr])
    have hitem := amp_not_mem_mkLiItem ha ha2
    intro hmem
    rw [show mkLiList ((n, st) :: qs) = mkLiItem (n, st) ++ mkLiList qs by
      simp [mkLiList]] at hmem
    rcases List.mem_append.mp hmem with h | h
    · exact hitem h
    · exact hqs h

theorem findLiAux_mkLiList (pairs : List (List Char × List Char))
    (hok : ∀ q ∈ pairs, liOkPair q) :
    ∀ fuel, (mkLiList pairs).length ≤ fuel →
      findLiAux fuel (mkLiList pairs) = pairs.map (fun q => q.1 ++ [' ']) := by
  induction pairs with
  | nil =>
    intro fuel _
    rw [show mkLiList [] = [] by simp [mkLiList]]
    simp [findLiAux_nil]
  | cons q qs ih =>
    intro fuel hfuel
    obtain ⟨n, st⟩ := q
    obtain ⟨hn, hp, ha, hstne, hpr, ha2⟩ := hok (n, st) (by simp)
    have hlist : mkLiList ((n, st) :: qs) = mkLiItem (n, st) ++ mkLiList qs := by
      simp [mkLiList]
    have hm := matchLiAt_mkLiItem n st (mkLiList qs) hp hstne hpr
    have hlen : (mkLiList qs).length + 1 ≤ fuel := by
      rw [hlist] at hfuel
      rw [List.length_append, mkLiItem_length] at hfuel
      omega
    cases fuel with
    | zero => omega
    | succ f =>
      rw [hlist]
      rw [findLiAux_of_match f _ (by
        intro h
        exact mkLiItem_ne_nil n st (List.append_eq_nil.mp h).1) hm]
      rw [ih (fun r hr => hok r (by simp [hr])) f (by omega)]
      simp

/-! ## Claim C5 -/

/-- Claim C5, counterexample.  The claim asserts the extracted names are
deduplicated with first-occurrence order.  The source
(`extract_services_from_html`) performs no deduplication: a name appearing
in two `<li>` entries contributes two output entries. -/
theorem c5_counterexample :
    extractServicesFromHtml "<li>Database (degraded)</li><li>Database (operational)</li>" =
      ["Database", "Database"] ∧
    extractServicesFromHtml "<li>Database (degraded)</li><li>Database (operational)</li>" ≠
      ["Database"] := by
  decide

/-- Claim C5, amended: for a non-empty well-formed
`<li>Name (Status)</li>` list, strategy-1 extraction returns exactly the
stripped `Name` parts, in document order, duplicates included (there is no
deduplication). -/
theorem c5_amended_li_extraction (pairs : List (List Char × List Char))
    (hne : pairs ≠ []) (hok : ∀ q ∈ pairs, liOkPair q) :
    extractServicesFromHtml (mkLiHtml pairs) =
      pairs.map (fun q => (pyStrip q.1).asString) := by
  have hdatane : mkLiList pairs ≠ [] := by
    cases pairs with
    | nil => exact absurd rfl hne
    | cons q qs =>
      obtain ⟨n, st⟩ := q
      rw [show mkLiList ((n, st) :: qs) = mkLiItem (n, st) ++ mkLiList qs by
        simp [mkLiList]]
      intro h
      exact mkLiItem_ne_nil n st (List.append_eq_nil.mp h).1
  have hsne : mkLiHtml pairs ≠ "" := by
    intro h
    exact hdatane (congrArg String.data h)
  have hid : unescapeCh (mkLiList pairs) = mkLiList pairs :=
    unescapeCh_id (amp_not_mem_mkLiList pairs hok)
  show (if mkLiHtml pairs = "" then [] else
    ((findLiAux (unescapeCh (mkLiHtml pairs).data).length
      (unescapeCh (mkLiHtml pairs).data)).map (fun g => (pyStrip g).asString))) =
    pairs.map (fun q => (pyStrip q.1).asString)
  rw [if_neg hsne]
  rw [show (mkLiHtml pairs).data = mkLiList pairs from rfl, hid]
  rw [findLiAux_mkLiList pairs hok _ (Nat.le_refl _)]
  rw [List.map_map]
  refine List.map_congr_left ?_
  intro q _
  show (pyStrip (q.1 ++ [' '])).asString = (pyStrip q.1).asString
  rw [pyStrip_append_space]

/-- Witness for `c5_amended_li_extraction`: a two-entry list extracts both
names in document order. -/
theorem c5_amended_li_extraction_witness :
    extractServicesFromHtml (mkLiHtml [("API".data, "down".data), ("Chat".data, "ok".data)]) =
      [("API".data, "down".data), ("Chat".data, "ok".data)].map
        (fun q => (pyStrip q.1).asString) ∧
    mkLiHtml [("API".data, "down".data), ("Chat".data, "ok".data)] =
      "<li>API (down)</li><li>Chat (ok)</li>" ∧
    [("API".data, "down".data), ("Chat".data, "ok".data)].map
        (fun q => (pyStrip q.1).asString) = ["API", "Chat"] := by
  refine ⟨?_, by decide, by decide⟩
  exact c5_amended_li_extraction [("API".data, "down".data), ("Chat".data, "ok".data)]
    (by decide) (by decide)

end SM





